import Mathlib

/-!
# Verification of the havsyn order-book ingestion pipeline

Shallow embedding of the React application in `src/unnamed/part_000`
(multi-symbol order-book viewer with a bounded message queue, a
sequential processor, and a session controller) and of the earlier
single-symbol variant `src/src/App.jsx`.

The WASM order-book engine (`WasmOrderbook`) is an external collaborator
consumed opaquely; it is modelled as an oracle function from raw messages
to outcomes (`ApplyOutcome`).  All application-level control flow —
queueing with the drop-oldest-batch overflow policy, the single-flight
guard, outcome classification, session switch/teardown — is translated
directly from the JavaScript source.
-/

namespace Havsyn

/-- A price level as returned by the engine (`{price, qty}` objects). -/
structure Level where
  price : ℚ
  qty : ℚ
  deriving Repr, DecidableEq

/-- The result object returned by `book.apply_and_get(msg, 10)` when it
returns normally with a non-null value: `msg_type`, `bids`, `asks`,
`spread`, `mid_price` (the latter two may be absent / undefined). -/
structure BookResult where
  msg_type : String
  bids : List Level
  asks : List Level
  spread : Option ℚ
  mid_price : Option ℚ
  deriving Repr, DecidableEq

/-- Outcome of one `book.apply_and_get` call: a normal return (whose value
may be null/undefined, hence `Option`), or a thrown exception carrying
`e.message`. -/
inductive ApplyOutcome where
  | ret (r : Option BookResult)
  | exn (message : String)
  deriving Repr, DecidableEq

/-- Whether the first character sequence occurs at the start of the
second. -/
def charListStartsWith : List Char → List Char → Bool
  | [], _ => true
  | _ :: _, [] => false
  | c :: cs, d :: ds => c == d && charListStartsWith cs ds

/-- Whether the first character sequence occurs anywhere inside the
second. -/
def charListContains (p : List Char) : List Char → Bool
  | [] => charListStartsWith p []
  | d :: ds => charListStartsWith p (d :: ds) || charListContains p ds

/-- JavaScript `s.includes("Checksum")` on the exception message. -/
def containsChecksum (s : String) : Bool :=
  charListContains "Checksum".toList s.toList

/-- Component state of the `App` in `src/unnamed/part_000`, restricted to
the fields the pipeline reads and writes: the published snapshot
(`bids`, `asks`, `spread`, `midPrice`, `updateCount`, `checksumValid`),
the `connected` flag, and the refs `messageQueueRef` (`queue`),
`processingRef` (`processing`) and `bookRef` (`book`, an engine-handle id,
`none` when the ref is null).  The queue element type `μ` is a parameter:
the raw payloads are strings; ghost session tags are added for the
session-level model. -/
structure AppState (μ : Type) where
  bids : List (ℚ × ℚ)
  asks : List (ℚ × ℚ)
  spread : Option ℚ
  midPrice : Option ℚ
  updateCount : ℕ
  checksumValid : Bool
  connected : Bool
  queue : List μ
  processing : Bool
  book : Option ℕ
  deriving Repr, DecidableEq

/-- Output of one synchronous call into the pipeline: the new component
state, the messages handed to `apply_and_get` during the call (`applied`,
zero or one), the messages whose result was published via the setState
batch (`pubbed`, zero or one), and the messages discarded by the overflow
policy (`dropped`). -/
structure StepOut (μ : Type) where
  state : AppState μ
  applied : List μ
  pubbed : List μ
  dropped : List μ
  deriving Repr, DecidableEq

/-- `processNextMessage` (part_000 lines 54–85).  Guards: a message in
flight, an empty queue, or a null `bookRef` make it return immediately.
Otherwise it shifts the queue head, calls `apply_and_get`, publishes on a
recognized `update`/`snapshot` result, flags `checksumValid := false` on
an exception whose message contains `Checksum`, and in all cases ends
with `processingRef.current = false`. -/
def processNextMessage {μ : Type} (engine : μ → ApplyOutcome) (s : AppState μ) :
    StepOut μ :=
  if s.processing then ⟨s, [], [], []⟩
  else
    match s.queue with
    | [] => ⟨s, [], [], []⟩
    | m :: rest =>
      match s.book with
      | none => ⟨s, [], [], []⟩
      | some _ =>
        let s1 : AppState μ := { s with queue := rest, processing := false }
        match engine m with
        | ApplyOutcome.ret (some r) =>
          if r.msg_type = "update" ∨ r.msg_type = "snapshot" then
            ⟨{ s1 with
                bids := r.bids.map (fun l => (l.price, l.qty)),
                asks := r.asks.map (fun l => (l.price, l.qty)),
                spread := r.spread,
                midPrice := r.mid_price,
                updateCount := s1.updateCount + 1,
                checksumValid := true }, [m], [m], []⟩
          else ⟨s1, [m], [], []⟩
        | ApplyOutcome.ret none => ⟨s1, [m], [], []⟩
        | ApplyOutcome.exn em =>
          if containsChecksum em then
            ⟨{ s1 with checksumValid := false }, [m], [], []⟩
          else ⟨s1, [m], [], []⟩

/-- The pure queue update inside `queueMessage` (part_000 lines 88–92):
push, then if the length exceeds 100 keep only the last 50
(`slice(-50)`). -/
def queuePush {μ : Type} (q : List μ) (m : μ) : List μ :=
  if 100 < (q ++ [m]).length then
    (q ++ [m]).drop ((q ++ [m]).length - 50)
  else q ++ [m]

/-- The messages discarded by the overflow policy in one `queueMessage`
call. -/
def queuePushDropped {μ : Type} (q : List μ) (m : μ) : List μ :=
  if 100 < (q ++ [m]).length then
    (q ++ [m]).take ((q ++ [m]).length - 50)
  else []

/-- `queueMessage` (part_000 lines 88–94): push with overflow truncation,
then a synchronous `processNextMessage()` call. -/
def queueMessage {μ : Type} (engine : μ → ApplyOutcome) (s : AppState μ) (m : μ) :
    StepOut μ :=
  let o := processNextMessage engine { s with queue := queuePush s.queue m }
  { o with dropped := queuePushDropped s.queue m ++ o.dropped }

/-- Events observable by one session's pipeline: an inbound transport
message (the live `ws.onmessage` handler calls `queueMessage`), or the
firing of a `setTimeout(processNextMessage, 0)` continuation. -/
inductive SEv (μ : Type) where
  | enq (m : μ)
  | timer
  deriving Repr, DecidableEq

/-- One synchronous turn of the host event loop. -/
def stepQ {μ : Type} (engine : μ → ApplyOutcome) (s : AppState μ) :
    SEv μ → StepOut μ
  | SEv.enq m => queueMessage engine s m
  | SEv.timer => processNextMessage engine s

/-- Run a list of event-loop turns, accumulating the engine-call trace,
the publication trace and the overflow-dropped messages. -/
def runQ {μ : Type} (engine : μ → ApplyOutcome) (s : AppState μ) :
    List (SEv μ) → StepOut μ
  | [] => ⟨s, [], [], []⟩
  | ev :: evs =>
    let o := stepQ engine s ev
    let r := runQ engine o.state evs
    ⟨r.state, o.applied ++ r.applied, o.pubbed ++ r.pubbed, o.dropped ++ r.dropped⟩

/-- The messages delivered by the transport during a run, in arrival
order. -/
def enqOf {μ : Type} : List (SEv μ) → List μ
  | [] => []
  | SEv.enq m :: evs => m :: enqOf evs
  | SEv.timer :: evs => enqOf evs

/-- Session-start component state (part_000 lines 111–149 after the
connect effect has run): everything reset, the queue empty, no message in
flight, and a fresh engine handle (id 0) in `bookRef`. -/
def initApp (μ : Type) : AppState μ :=
  { bids := [], asks := [], spread := none, midPrice := none,
    updateCount := 0, checksumValid := true, connected := false,
    queue := [], processing := false, book := some 0 }

/-! ## Elementary facts about the overflow policy and the processor -/

theorem queuePush_length_le {μ : Type} (q : List μ) (m : μ) :
    (queuePush q m).length ≤ 100 := by
  unfold queuePush
  split
  · simp only [List.length_drop]
    omega
  · rename_i h
    simp only [not_lt] at h
    exact h

theorem queuePush_sublist {μ : Type} (q : List μ) (m : μ) :
    (queuePush q m).Sublist (q ++ [m]) := by
  unfold queuePush
  split
  · exact List.drop_sublist _ _
  · exact List.Sublist.refl _

theorem queuePush_length_add {μ : Type} (q : List μ) (m : μ) :
    (queuePush q m).length + (queuePushDropped q m).length = q.length + 1 := by
  unfold queuePush queuePushDropped
  split
  · simp only [List.length_drop, List.length_take, List.length_append,
      List.length_singleton] at *
    omega
  · simp

theorem processNextMessage_busy {μ : Type} (engine : μ → ApplyOutcome)
    (s : AppState μ) (h : s.processing = true) :
    processNextMessage engine s = ⟨s, [], [], []⟩ := by
  unfold processNextMessage
  simp [h]

/-- In every case, the engine-call trace of one processor step followed by
the remaining queue is exactly the starting queue: the step either does
nothing or moves the head of the queue into the trace. -/
theorem processNextMessage_conserve {μ : Type} (engine : μ → ApplyOutcome)
    (s : AppState μ) :
    (processNextMessage engine s).applied ++ (processNextMessage engine s).state.queue
      = s.queue := by
  obtain ⟨b, a, sp, mp, uc, cv, cn, q, pr, bk⟩ := s
  cases pr
  · cases q with
    | nil => simp [processNextMessage]
    | cons m rest =>
      cases bk with
      | none => simp [processNextMessage]
      | some h =>
        simp only [processNextMessage, if_neg, Bool.false_eq_true, not_false_iff]
        cases engine m with
        | ret r =>
          cases r with
          | none => simp
          | some r0 =>
            by_cases ht : r0.msg_type = "update" ∨ r0.msg_type = "snapshot" <;>
              simp [ht]
        | exn em => by_cases hc : containsChecksum em <;> simp [hc]
  · simp [processNextMessage]

theorem processNextMessage_processing {μ : Type} (engine : μ → ApplyOutcome)
    (s : AppState μ) :
    (processNextMessage engine s).state.processing = s.processing := by
  obtain ⟨b, a, sp, mp, uc, cv, cn, q, pr, bk⟩ := s
  cases pr
  · cases q with
    | nil => simp [processNextMessage]
    | cons m rest =>
      cases bk with
      | none => simp [processNextMessage]
      | some h =>
        simp only [processNextMessage, if_neg, Bool.false_eq_true, not_false_iff]
        cases engine m with
        | ret r =>
          cases r with
          | none => simp
          | some r0 =>
            by_cases ht : r0.msg_type = "update" ∨ r0.msg_type = "snapshot" <;>
              simp [ht]
        | exn em => by_cases hc : containsChecksum em <;> simp [hc]
  · simp [processNextMessage]

theorem processNextMessage_dropped {μ : Type} (engine : μ → ApplyOutcome)
    (s : AppState μ) :
    (processNextMessage engine s).dropped = [] := by
  obtain ⟨b, a, sp, mp, uc, cv, cn, q, pr, bk⟩ := s
  cases pr
  · cases q with
    | nil => simp [processNextMessage]
    | cons m rest =>
      cases bk with
      | none => simp [processNextMessage]
      | some h =>
        simp only [processNextMessage, if_neg, Bool.false_eq_true, not_false_iff]
        cases engine m with
        | ret r =>
          cases r with
          | none => simp
          | some r0 =>
            by_cases ht : r0.msg_type = "update" ∨ r0.msg_type = "snapshot" <;>
              simp [ht]
        | exn em => by_cases hc : containsChecksum em <;> simp [hc]
  · simp [processNextMessage]

theorem processNextMessage_applied_le_one {μ : Type} (engine : μ → ApplyOutcome)
    (s : AppState μ) :
    (processNextMessage engine s).applied.length ≤ 1 := by
  obtain ⟨b, a, sp, mp, uc, cv, cn, q, pr, bk⟩ := s
  cases pr
  · cases q with
    | nil => simp [processNextMessage]
    | cons m rest =>
      cases bk with
      | none => simp [processNextMessage]
      | some h =>
        simp only [processNextMessage, if_neg, Bool.false_eq_true, not_false_iff]
        cases engine m with
        | ret r =>
          cases r with
          | none => simp
          | some r0 =>
            by_cases ht : r0.msg_type = "update" ∨ r0.msg_type = "snapshot" <;>
              simp [ht]
        | exn em => by_cases hc : containsChecksum em <;> simp [hc]
  · simp [processNextMessage]

theorem getLast?_drop_of_lt {μ : Type} (n : ℕ) (l : List μ) (h : n < l.length) :
    (l.drop n).getLast? = l.getLast? := by
  obtain ⟨t, ht⟩ := List.drop_suffix n l
  conv_rhs => rw [← ht]
  refine (List.getLast?_append_of_ne_nil t ?_).symm
  intro hnil
  have h2 := List.length_drop n l
  rw [hnil] at h2
  simp at h2
  omega

theorem queueMessage_applied_queue {μ : Type} (engine : μ → ApplyOutcome)
    (s : AppState μ) (m : μ) :
    (queueMessage engine s m).applied ++ (queueMessage engine s m).state.queue
      = queuePush s.queue m := by
  have h := processNextMessage_conserve engine { s with queue := queuePush s.queue m }
  simpa [queueMessage] using h

theorem queueMessage_dropped_eq {μ : Type} (engine : μ → ApplyOutcome)
    (s : AppState μ) (m : μ) :
    (queueMessage engine s m).dropped = queuePushDropped s.queue m := by
  have h := processNextMessage_dropped engine { s with queue := queuePush s.queue m }
  simp [queueMessage, h]

theorem queueMessage_processing {μ : Type} (engine : μ → ApplyOutcome)
    (s : AppState μ) (m : μ) :
    (queueMessage engine s m).state.processing = s.processing := by
  have h := processNextMessage_processing engine { s with queue := queuePush s.queue m }
  simpa [queueMessage] using h

theorem enqOf_cons {μ : Type} (ev : SEv μ) (evs : List (SEv μ)) :
    enqOf (ev :: evs) = enqOf [ev] ++ enqOf evs := by
  cases ev <;> simp [enqOf]

/-- One event-loop turn: the trace extended by the remaining queue is a
FIFO-ordered sublist of the old queue plus the arrivals of the turn, the
only losses are the overflow drops (counted exactly), and the in-flight
flag is restored. -/
theorem stepQ_conserve {μ : Type} (engine : μ → ApplyOutcome)
    (s : AppState μ) (ev : SEv μ) :
    ((stepQ engine s ev).applied ++ (stepQ engine s ev).state.queue).Sublist
        (s.queue ++ enqOf [ev]) ∧
    ((stepQ engine s ev).applied ++ (stepQ engine s ev).state.queue).length
        + (stepQ engine s ev).dropped.length
      = s.queue.length + (enqOf [ev]).length ∧
    (stepQ engine s ev).state.processing = s.processing := by
  cases ev with
  | timer =>
    refine ⟨?_, ?_, ?_⟩
    · have h := processNextMessage_conserve engine s
      simp only [stepQ, enqOf, List.append_nil, h]
      exact List.Sublist.refl _
    · have h := processNextMessage_conserve engine s
      have hd := processNextMessage_dropped engine s
      simp [stepQ, enqOf, h, hd]
    · simp [stepQ, processNextMessage_processing]
  | enq m =>
    have hc := queueMessage_applied_queue engine s m
    have hd := queueMessage_dropped_eq engine s m
    have hp := queueMessage_processing engine s m
    refine ⟨?_, ?_, ?_⟩
    · simp only [stepQ, hc, enqOf]
      exact queuePush_sublist s.queue m
    · simp only [stepQ, hc, hd, enqOf]
      simpa using queuePush_length_add s.queue m
    · simp only [stepQ, hp]

/-- Run-level conservation: over any sequence of event-loop turns, the
engine-call trace followed by the final queue is a FIFO sublist of the
initial queue plus all arrivals; what is missing is exactly what the
overflow policy dropped; and the single-flight flag returns to its
initial value. -/
theorem runQ_conserve {μ : Type} (engine : μ → ApplyOutcome) :
    ∀ (evs : List (SEv μ)) (s : AppState μ),
    ((runQ engine s evs).applied ++ (runQ engine s evs).state.queue).Sublist
        (s.queue ++ enqOf evs) ∧
    ((runQ engine s evs).applied ++ (runQ engine s evs).state.queue).length
        + (runQ engine s evs).dropped.length
      = s.queue.length + (enqOf evs).length ∧
    (runQ engine s evs).state.processing = s.processing := by
  intro evs
  induction evs with
  | nil => intro s; simp [runQ, enqOf]
  | cons ev evs ih =>
    intro s
    obtain ⟨h1, h2, h3⟩ := stepQ_conserve engine s ev
    obtain ⟨ih1, ih2, ih3⟩ := ih (stepQ engine s ev).state
    have ha : (runQ engine s (ev :: evs)).applied
        = (stepQ engine s ev).applied ++ (runQ engine (stepQ engine s ev).state evs).applied := by
      simp [runQ]
    have hs : (runQ engine s (ev :: evs)).state
        = (runQ engine (stepQ engine s ev).state evs).state := by
      simp [runQ]
    have hd : (runQ engine s (ev :: evs)).dropped
        = (stepQ engine s ev).dropped ++ (runQ engine (stepQ engine s ev).state evs).dropped := by
      simp [runQ]
    refine ⟨?_, ?_, ?_⟩
    · rw [ha, hs, List.append_assoc, enqOf_cons]
      conv_rhs => rw [← List.append_assoc]
      refine (ih1.append_left (stepQ engine s ev).applied).trans ?_
      rw [← List.append_assoc]
      exact h1.append_right (enqOf evs)
    · rw [ha, hs, hd, enqOf_cons]
      simp only [List.length_append] at h2 ih2 ⊢
      omega
    · rw [hs, ih3, h3]

/-! ## Claim theorems: queue and processor -/

/-- C1: starting from a fresh session, over every sequence of transport
arrivals and timer continuations, the messages handed to `apply_and_get`
followed by the still-pending queue form a FIFO-ordered sublist of the
arrival sequence, the only missing ones being exactly those dropped by
overflow truncation (counted exactly); the in-flight flag is false at
every turn boundary, each turn hands at most one message to the engine,
and a processor invocation while a message is in flight is a complete
no-op — so no two engine calls overlap. -/
theorem engine_observes_fifo_single_flight {μ : Type} (engine : μ → ApplyOutcome)
    (evs : List (SEv μ)) :
    ((runQ engine (initApp μ) evs).applied
        ++ (runQ engine (initApp μ) evs).state.queue).Sublist (enqOf evs) ∧
    ((runQ engine (initApp μ) evs).applied
        ++ (runQ engine (initApp μ) evs).state.queue).length
        + (runQ engine (initApp μ) evs).dropped.length = (enqOf evs).length ∧
    (runQ engine (initApp μ) evs).state.processing = false ∧
    (∀ s : AppState μ, ∀ ev, (stepQ engine s ev).applied.length ≤ 1) ∧
    (∀ s : AppState μ, s.processing = true →
      processNextMessage engine s = ⟨s, [], [], []⟩) := by
  obtain ⟨h1, h2, h3⟩ := runQ_conserve engine evs (initApp μ)
  refine ⟨by simpa [initApp] using h1, by simpa [initApp] using h2,
    by simpa [initApp] using h3, ?_, processNextMessage_busy engine⟩
  intro s ev
  cases ev with
  | timer => exact processNextMessage_applied_le_one engine s
  | enq m =>
    have h := processNextMessage_applied_le_one engine { s with queue := queuePush s.queue m }
    simpa [stepQ, queueMessage] using h

/-- Concrete oracle used by witnesses: the engine returns a null result on
every message. -/
def engW : ℕ → ApplyOutcome := fun _ => ApplyOutcome.ret none

/-- Witness for C1 at a concrete engine and event sequence. -/
theorem engine_observes_fifo_single_flight_witness :
    ((runQ engW (initApp ℕ) [SEv.enq 7, SEv.timer, SEv.enq 8]).applied
        ++ (runQ engW (initApp ℕ) [SEv.enq 7, SEv.timer, SEv.enq 8]).state.queue).Sublist
      (enqOf [SEv.enq 7, SEv.timer, SEv.enq 8]) ∧
    ((runQ engW (initApp ℕ) [SEv.enq 7, SEv.timer, SEv.enq 8]).applied
        ++ (runQ engW (initApp ℕ) [SEv.enq 7, SEv.timer, SEv.enq 8]).state.queue).length
        + (runQ engW (initApp ℕ) [SEv.enq 7, SEv.timer, SEv.enq 8]).dropped.length
      = (enqOf [SEv.enq 7, SEv.timer, SEv.enq 8]).length ∧
    (runQ engW (initApp ℕ) [SEv.enq 7, SEv.timer, SEv.enq 8]).state.processing = false ∧
    (∀ s : AppState ℕ, ∀ ev, (stepQ engW s ev).applied.length ≤ 1) ∧
    (∀ s : AppState ℕ, s.processing = true →
      processNextMessage engW s = ⟨s, [], [], []⟩) :=
  engine_observes_fifo_single_flight engW [SEv.enq 7, SEv.timer, SEv.enq 8]

/-- C2: after any `queueMessage` push the queue holds at most 100 entries,
and whenever the append made the length exceed 100 the queue is exactly
the 50 most recent entries — a suffix of the appended sequence, of length
50, ending in the message just appended. -/
theorem queue_overflow_drop_oldest_batch {μ : Type} (q : List μ) (m : μ) :
    (queuePush q m).length ≤ 100 ∧
    (100 < (q ++ [m]).length →
      queuePush q m = (q ++ [m]).drop ((q ++ [m]).length - 50) ∧
      (queuePush q m).length = 50 ∧
      (queuePush q m).getLast? = some m ∧
      (queuePush q m).IsSuffix (q ++ [m])) := by
  refine ⟨queuePush_length_le q m, fun h => ?_⟩
  have hq : queuePush q m = (q ++ [m]).drop ((q ++ [m]).length - 50) := by
    unfold queuePush
    rw [if_pos h]
  refine ⟨hq, ?_, ?_, ?_⟩
  · rw [hq]
    simp only [List.length_drop]
    simp only [List.length_append, List.length_singleton] at h ⊢
    omega
  · rw [hq, getLast?_drop_of_lt]
    · simp
    · simp only [List.length_append, List.length_singleton] at h ⊢
      omega
  · rw [hq]
    exact List.drop_suffix _ _

/-- Witness for C2: 100 pending messages plus one more triggers the
drop-oldest-batch policy. -/
theorem queue_overflow_drop_oldest_batch_witness :
    (queuePush (List.range 100) 100).length ≤ 100 ∧
    (queuePush (List.range 100) 100
        = (List.range 100 ++ [100]).drop ((List.range 100 ++ [100]).length - 50) ∧
      (queuePush (List.range 100) 100).length = 50 ∧
      (queuePush (List.range 100) 100).getLast? = some 100 ∧
      (queuePush (List.range 100) 100).IsSuffix (List.range 100 ++ [100])) :=
  ⟨(queue_overflow_drop_oldest_batch (List.range 100) 100).1,
    (queue_overflow_drop_oldest_batch (List.range 100) 100).2 (by decide)⟩

/-- C9: `processNextMessage` is a total no-op — state untouched, no engine
call, no publication, nothing dropped — whenever a message is in flight,
the queue is empty, or there is no engine instance; and a message queued
while no engine instance exists is appended to the queue (with overflow
truncation) and stays there untouched. -/
theorem processor_guard_noop {μ : Type} (engine : μ → ApplyOutcome)
    (s : AppState μ) :
    ((s.processing = true ∨ s.queue = [] ∨ s.book = none) →
      processNextMessage engine s = ⟨s, [], [], []⟩) ∧
    (s.book = none → ∀ m, queueMessage engine s m
      = ⟨{ s with queue := queuePush s.queue m }, [], [],
          queuePushDropped s.queue m⟩) := by
  constructor
  · intro h
    obtain ⟨b, a, sp, mp, uc, cv, cn, q, pr, bk⟩ := s
    rcases h with h | h | h
    · exact processNextMessage_busy engine _ h
    · simp only at h
      subst h
      cases pr <;> simp [processNextMessage]
    · simp only at h
      subst h
      cases pr <;> cases q <;> simp [processNextMessage]
  · intro h m
    obtain ⟨b, a, sp, mp, uc, cv, cn, q, pr, bk⟩ := s
    simp only at h
    subst h
    unfold queueMessage
    cases pr <;> cases hq : queuePush q m <;> simp [processNextMessage, hq]

/-- Witness for C9: with no engine instance, the processor leaves a
nonempty queue alone and an enqueue only appends. -/
theorem processor_guard_noop_witness :
    (processNextMessage engW { initApp ℕ with book := none, queue := [3] }
      = ⟨{ initApp ℕ with book := none, queue := [3] }, [], [], []⟩) ∧
    (queueMessage engW { initApp ℕ with book := none, queue := [3] } 4
      = ⟨{ initApp ℕ with book := none, queue := queuePush [3] 4 }, [], [],
          queuePushDropped [3] 4⟩) :=
  ⟨(processor_guard_noop engW _).1 (Or.inr (Or.inr rfl)),
    (processor_guard_noop engW _).2 rfl 4⟩

/-! ## Claim theorem: checksum-failure handling (C4) -/

theorem queuePush_no_overflow {μ : Type} (q : List μ) (m : μ)
    (h : q.length + 1 ≤ 100) :
    queuePush q m = q ++ [m] ∧ queuePushDropped q m = [] := by
  have h' : ¬ 100 < (q ++ [m]).length := by
    simp only [List.length_append, List.length_singleton]
    omega
  unfold queuePush queuePushDropped
  rw [if_neg h', if_neg h']
  exact ⟨rfl, rfl⟩

/-- C4: an integrity (checksum) exception from `apply_and_get` only flips
`checksumValid` to false — published bids, asks, spread, mid price and
the update counter are untouched and nothing is published — while the
next enqueued message carrying a valid update is still handed to the
engine, its book is published, the counter is incremented, and
`checksumValid` returns to true. -/
theorem checksum_failure_nonfatal {μ : Type} (engine : μ → ApplyOutcome)
    (s : AppState μ) (m₁ m₂ : μ) (em : String) (r : BookResult) (hdl : ℕ)
    (hpr : s.processing = false) (hbk : s.book = some hdl) (hq : s.queue = [])
    (h1 : engine m₁ = ApplyOutcome.exn em) (hcs : containsChecksum em = true)
    (h2 : engine m₂ = ApplyOutcome.ret (some r)) (hty : r.msg_type = "update") :
    (queueMessage engine s m₁).state.checksumValid = false ∧
    (queueMessage engine s m₁).state.bids = s.bids ∧
    (queueMessage engine s m₁).state.asks = s.asks ∧
    (queueMessage engine s m₁).state.spread = s.spread ∧
    (queueMessage engine s m₁).state.midPrice = s.midPrice ∧
    (queueMessage engine s m₁).state.updateCount = s.updateCount ∧
    (queueMessage engine s m₁).pubbed = [] ∧
    (queueMessage engine (queueMessage engine s m₁).state m₂).applied = [m₂] ∧
    (queueMessage engine (queueMessage engine s m₁).state m₂).pubbed = [m₂] ∧
    (queueMessage engine (queueMessage engine s m₁).state m₂).state.bids
      = r.bids.map (fun l => (l.price, l.qty)) ∧
    (queueMessage engine (queueMessage engine s m₁).state m₂).state.asks
      = r.asks.map (fun l => (l.price, l.qty)) ∧
    (queueMessage engine (queueMessage engine s m₁).state m₂).state.spread
      = r.spread ∧
    (queueMessage engine (queueMessage engine s m₁).state m₂).state.midPrice
      = r.mid_price ∧
    (queueMessage engine (queueMessage engine s m₁).state m₂).state.updateCount
      = s.updateCount + 1 ∧
    (queueMessage engine (queueMessage engine s m₁).state m₂).state.checksumValid
      = true := by
  obtain ⟨b, a, sp, mp, uc, cv, cn, q, pr, bk⟩ := s
  simp only at hpr hbk hq
  subst hpr hbk hq
  have hp1 : queuePush ([] : List μ) m₁ = [m₁] :=
    (queuePush_no_overflow [] m₁ (by simp)).1
  have hp2 : queuePush ([] : List μ) m₂ = [m₂] :=
    (queuePush_no_overflow [] m₂ (by simp)).1
  simp [queueMessage, hp1, hp2, processNextMessage, h1, h2, hcs, hty]

/-- The update result served by `engC4` for messages other than 1. -/
def rC4 : BookResult :=
  { msg_type := "update",
    bids := [⟨100, 2⟩, ⟨199/2, 1⟩],
    asks := [⟨201/2, 3/2⟩],
    spread := some (1/2), mid_price := some (401/4) }

/-- Engine oracle for the C4 witness: message 1 raises a checksum
exception, message 2 yields a valid update. -/
def engC4 : ℕ → ApplyOutcome := fun m =>
  if m = 1 then ApplyOutcome.exn "Checksum mismatch: expected 123"
  else ApplyOutcome.ret (some rC4)

/-- Witness for C4 at a concrete engine, from a fresh session state. -/
theorem checksum_failure_nonfatal_witness :
    (queueMessage engC4 (initApp ℕ) 1).state.checksumValid = false ∧
    (queueMessage engC4 (initApp ℕ) 1).state.bids = (initApp ℕ).bids ∧
    (queueMessage engC4 (initApp ℕ) 1).state.asks = (initApp ℕ).asks ∧
    (queueMessage engC4 (initApp ℕ) 1).state.spread = (initApp ℕ).spread ∧
    (queueMessage engC4 (initApp ℕ) 1).state.midPrice = (initApp ℕ).midPrice ∧
    (queueMessage engC4 (initApp ℕ) 1).state.updateCount = (initApp ℕ).updateCount ∧
    (queueMessage engC4 (initApp ℕ) 1).pubbed = [] ∧
    (queueMessage engC4 (queueMessage engC4 (initApp ℕ) 1).state 2).applied = [2] ∧
    (queueMessage engC4 (queueMessage engC4 (initApp ℕ) 1).state 2).pubbed = [2] ∧
    (queueMessage engC4 (queueMessage engC4 (initApp ℕ) 1).state 2).state.bids
      = rC4.bids.map (fun l => (l.price, l.qty)) ∧
    (queueMessage engC4 (queueMessage engC4 (initApp ℕ) 1).state 2).state.asks
      = rC4.asks.map (fun l => (l.price, l.qty)) ∧
    (queueMessage engC4 (queueMessage engC4 (initApp ℕ) 1).state 2).state.spread
      = rC4.spread ∧
    (queueMessage engC4 (queueMessage engC4 (initApp ℕ) 1).state 2).state.midPrice
      = rC4.mid_price ∧
    (queueMessage engC4 (queueMessage engC4 (initApp ℕ) 1).state 2).state.updateCount
      = (initApp ℕ).updateCount + 1 ∧
    (queueMessage engC4 (queueMessage engC4 (initApp ℕ) 1).state 2).state.checksumValid
      = true :=
  checksum_failure_nonfatal engC4 (initApp ℕ) 1 2 "Checksum mismatch: expected 123"
    rC4 0 rfl rfl rfl rfl (by decide) rfl rfl

/-! ## The single-symbol app (`src/src/App.jsx`) and the spread/mid guard -/

/-- Engine view consumed by `src/src/App.jsx`: `apply_message` returns a
message type, and the queries `get_best_bid`, `get_best_ask`,
`get_mid_price`, `get_spread`, `get_top_bids(10)`, `get_top_asks(10)`
return the values bundled here. -/
structure JsEngineOut where
  msgType : String
  bestBid : ℚ
  bestAsk : ℚ
  midPrice : ℚ
  spread : ℚ
  topBids : List Level
  topAsks : List Level
  deriving Repr, DecidableEq

/-- Component state of `src/src/App.jsx`. -/
structure JsState where
  connected : Bool
  bids : List (ℚ × ℚ)
  asks : List (ℚ × ℚ)
  spread : Option ℚ
  midPrice : Option ℚ
  updateCount : ℕ
  deriving Repr, DecidableEq

/-- Initial component state of `src/src/App.jsx`. -/
def jsInit : JsState :=
  { connected := false, bids := [], asks := [], spread := none,
    midPrice := none, updateCount := 0 }

/-- `ws.onmessage` of `src/src/App.jsx` (lines 55–85): on a recognized
`snapshot`/`update`, set mid price and spread only when both best levels
are strictly positive, then publish the top-10 lists and bump the
counter; a thrown exception (`none`) is swallowed. -/
def jsOnMessage (eng : ℕ → Option JsEngineOut) (s : JsState) (m : ℕ) : JsState :=
  match eng m with
  | none => s
  | some o =>
    if o.msgType = "snapshot" ∨ o.msgType = "update" then
      let s1 :=
        if 0 < o.bestBid ∧ 0 < o.bestAsk then
          { s with midPrice := some o.midPrice, spread := some o.spread }
        else s
      { s1 with
          bids := o.topBids.map (fun l => (l.price, l.qty)),
          asks := o.topAsks.map (fun l => (l.price, l.qty)),
          updateCount := s1.updateCount + 1 }
    else s

/-- Process a sequence of transport messages through `ws.onmessage`. -/
def jsRun (eng : ℕ → Option JsEngineOut) (s : JsState) : List ℕ → JsState
  | [] => s
  | m :: ms => jsRun eng (jsOnMessage eng s m) ms

/-- Engine oracle for the C6 counterexample: message 0 is a snapshot with
both sides present; message 1 is an update after which the bid side is
empty (best bid 0). -/
def engC6 : ℕ → Option JsEngineOut := fun m =>
  if m = 0 then
    some { msgType := "snapshot", bestBid := 100, bestAsk := 101,
           midPrice := 100, spread := 1,
           topBids := [⟨100, 2⟩], topAsks := [⟨101, 3⟩] }
  else if m = 1 then
    some { msgType := "update", bestBid := 0, bestAsk := 101,
           midPrice := 0, spread := 0,
           topBids := [], topAsks := [⟨101, 3⟩] }
  else none

/-- C6 counterexample: after a snapshot with both sides positive followed
by an update that empties the bid side, the published bid list is empty —
so the best bid is undefined — yet spread and mid price are still the
defined, stale values from the earlier snapshot, contradicting the claim
that they are reported as undefined whenever a best level is missing or
non-positive. -/
theorem spread_stale_counterexample :
    (jsRun engC6 jsInit [0, 1]).bids = [] ∧
    (jsRun engC6 jsInit [0, 1]).spread = some 1 ∧
    (jsRun engC6 jsInit [0, 1]).midPrice = some 100 := by decide

/-- C6 amended: spread and mid price are recomputed (from the engine's
values) exactly when a recognized message finds both best levels strictly
positive; in every other case the handler leaves them unchanged — the
previously published values are retained, possibly stale, rather than
being reset to undefined. -/
theorem spread_mid_guard_or_stale (eng : ℕ → Option JsEngineOut)
    (s : JsState) (m : ℕ) :
    ((jsOnMessage eng s m).spread = s.spread ∧
      (jsOnMessage eng s m).midPrice = s.midPrice) ∨
    (∃ o, eng m = some o ∧ (o.msgType = "snapshot" ∨ o.msgType = "update") ∧
      0 < o.bestBid ∧ 0 < o.bestAsk ∧
      (jsOnMessage eng s m).spread = some o.spread ∧
      (jsOnMessage eng s m).midPrice = some o.midPrice) := by
  unfold jsOnMessage
  cases he : eng m with
  | none => exact Or.inl ⟨rfl, rfl⟩
  | some o =>
    by_cases ht : o.msgType = "snapshot" ∨ o.msgType = "update"
    · by_cases hb : 0 < o.bestBid ∧ 0 < o.bestAsk
      · exact Or.inr ⟨o, rfl, ht, hb.1, hb.2, by simp [ht, hb], by simp [ht, hb]⟩
      · exact Or.inl ⟨by simp [ht, hb], by simp [ht, hb]⟩
    · exact Or.inl ⟨by simp [ht], by simp [ht]⟩

/-! ## Session controller model (part_000 connect effect, lines 111–191) -/

/-- The static `SYMBOL_PRECISION` table (part_000 lines 9–15). -/
def SYMBOL_PRECISION (sym : String) : Option (ℕ × ℕ) :=
  if sym = "BTC/USD" then some (1, 8)
  else if sym = "ETH/USD" then some (2, 8)
  else if sym = "SOL/USD" then some (2, 8)
  else if sym = "XRP/USD" then some (5, 8)
  else if sym = "ADA/USD" then some (6, 8)
  else none

/-- `SYMBOL_PRECISION[symbol] || [2, 8]` (part_000 line 147). -/
def precisionFor (sym : String) : ℕ × ℕ :=
  (SYMBOL_PRECISION sym).getD (2, 8)

/-- The structured subscription request sent on transport open
(part_000 lines 160–167). -/
structure SubscribeReq where
  method : String
  channel : String
  symbol : List String
  depth : ℕ
  deriving Repr, DecidableEq

/-- Build the subscription request for a symbol. -/
def mkSubscribeReq (sym : String) : SubscribeReq :=
  { method := "subscribe", channel := "book", symbol := [sym], depth := 25 }

/-- Session-level system state.  `st` is the component state, with queue
entries carrying a ghost session tag (the id of the connect-effect
instance whose `ws.onmessage` enqueued them).  `liveSid` is the id of the
currently mounted effect instance (handlers of retired instances see
`mounted = false`).  `freedHandles` records every engine handle whose
`free()` was invoked, `precisions` every `set_precision` call
(handle, price digits, qty digits), `sent` every subscription request,
and `published` a ghost pair (tag of the published message, live session
id at publication time). -/
structure Sys where
  st : AppState (ℕ × String)
  symbol : String
  liveSid : ℕ
  nextHandle : ℕ
  freedHandles : List ℕ
  precisions : List (ℕ × (ℕ × ℕ))
  sent : List SubscribeReq
  published : List (ℕ × ℕ)
  deriving Repr, DecidableEq

/-- State after mount and the first connect effect (symbol `BTC/USD`,
engine handle 0, precision configured from the table). -/
def initSys : Sys :=
  { st := initApp (ℕ × String),
    symbol := "BTC/USD", liveSid := 0, nextHandle := 1,
    freedHandles := [], precisions := [(0, precisionFor "BTC/USD")],
    sent := [], published := [] }

/-- The engine oracle ignores the ghost session tag. -/
def liftEngine (engine : String → ApplyOutcome) : ℕ × String → ApplyOutcome :=
  fun p => engine p.2

/-- `handleSymbolChange` (part_000 lines 215–220) followed by the re-run
of the connect effect (lines 111–191): a no-op for the current symbol;
otherwise the old effect's cleanup invalidates its `mounted` flag (the
session id advances), and the new effect body resets the published
snapshot, validity, counter, queue and in-flight flag, frees the old
engine handle, and creates a fresh handle configured with the symbol's
precision.  The `connected` flag is not written by the effect body, and
the old socket's `onclose` handler returns early on `!mounted`, so the
flag keeps its previous value. -/
def switchInstrument (s : Sys) (sym : String) : Sys :=
  if sym = s.symbol then s
  else
    { st := { bids := [], asks := [], spread := none, midPrice := none,
              updateCount := 0, checksumValid := true,
              connected := s.st.connected,
              queue := [], processing := false,
              book := some s.nextHandle },
      symbol := sym,
      liveSid := s.liveSid + 1,
      nextHandle := s.nextHandle + 1,
      freedHandles := s.freedHandles ++ s.st.book.toList,
      precisions := s.precisions ++ [(s.nextHandle, precisionFor sym)],
      sent := s.sent,
      published := s.published }

/-- Externally visible actions, in execution order: an engine handle's
`free()`, the creation of a handle, one `apply_and_get` call (handle,
ghost tag, raw payload), and one publication (ghost tag, live session
id). -/
inductive Act where
  | free (h : ℕ)
  | create (h : ℕ)
  | apply (h : ℕ) (tag : ℕ) (raw : String)
  | publish (tag : ℕ) (live : ℕ)
  deriving Repr, DecidableEq

/-- Session-level events: a message delivered to a (possibly retired)
socket's `onmessage`, a processor timer, transport open/close signals
delivered to a (possibly retired) socket, and an instrument switch. -/
inductive SysEv where
  | wsMsg (sid : ℕ) (raw : String)
  | timer
  | wsOpen (sid : ℕ)
  | wsClose (sid : ℕ)
  | switch (sym : String)
  deriving Repr, DecidableEq

/-- One session-level event, returning the new state and the actions the
turn performed.  Handlers of retired sockets (`sid ≠ liveSid`) return
early on their dead `mounted` flag. -/
def stepSys (engine : String → ApplyOutcome) (s : Sys) : SysEv → Sys × List Act
  | SysEv.wsMsg sid raw =>
    if sid = s.liveSid then
      let o := queueMessage (liftEngine engine) s.st (sid, raw)
      ({ s with
          st := o.state,
          published := s.published ++ o.pubbed.map (fun p => (p.1, s.liveSid)) },
       o.applied.map (fun p => Act.apply (s.st.book.getD 0) p.1 p.2)
         ++ o.pubbed.map (fun p => Act.publish p.1 s.liveSid))
    else (s, [])
  | SysEv.timer =>
    let o := processNextMessage (liftEngine engine) s.st
    ({ s with
        st := o.state,
        published := s.published ++ o.pubbed.map (fun p => (p.1, s.liveSid)) },
     o.applied.map (fun p => Act.apply (s.st.book.getD 0) p.1 p.2)
       ++ o.pubbed.map (fun p => Act.publish p.1 s.liveSid))
  | SysEv.wsOpen sid =>
    (if sid = s.liveSid then
      { s with
          st := { s.st with connected := true },
          sent := s.sent ++ [mkSubscribeReq s.symbol] }
     else s, [])
  | SysEv.wsClose sid =>
    (if sid = s.liveSid then
      { s with st := { s.st with connected := false } }
     else s, [])
  | SysEv.switch sym =>
    (switchInstrument s sym,
     if sym = s.symbol then []
     else s.st.book.toList.map Act.free ++ [Act.create s.nextHandle])

/-- Run a list of session-level events, accumulating the action log. -/
def runSys (engine : String → ApplyOutcome) (s : Sys) :
    List SysEv → Sys × List Act
  | [] => (s, [])
  | ev :: evs =>
    let o := stepSys engine s ev
    let r := runSys engine o.1 evs
    (r.1, o.2 ++ r.2)

/-- Full case analysis of one processor call: either a guarded no-op, or
exactly the head of the queue is applied (and possibly published), the
book handle unchanged. -/
theorem processNextMessage_cases {μ : Type} (e : μ → ApplyOutcome)
    (s : AppState μ) :
    processNextMessage e s = ⟨s, [], [], []⟩ ∨
    ∃ m rest hb, s.queue = m :: rest ∧ s.book = some hb ∧
      s.processing = false ∧
      (processNextMessage e s).state.queue = rest ∧
      (processNextMessage e s).applied = [m] ∧
      ((processNextMessage e s).pubbed = [] ∨
        (processNextMessage e s).pubbed = [m]) ∧
      (processNextMessage e s).state.book = some hb := by
  obtain ⟨b, a, sp, mp, uc, cv, cn, q, pr, bk⟩ := s
  cases pr
  · cases q with
    | nil => exact Or.inl (by simp [processNextMessage])
    | cons m rest =>
      cases bk with
      | none => exact Or.inl (by simp [processNextMessage])
      | some hb =>
        refine Or.inr ⟨m, rest, hb, rfl, rfl, rfl, ?_⟩
        simp only [processNextMessage, if_neg, Bool.false_eq_true, not_false_iff]
        cases e m with
        | ret r =>
          cases r with
          | none => simp
          | some r0 =>
            by_cases ht : r0.msg_type = "update" ∨ r0.msg_type = "snapshot" <;>
              simp [ht]
        | exn em => by_cases hc : containsChecksum em <;> simp [hc]
  · exact Or.inl (by simp [processNextMessage])

theorem processNextMessage_book {μ : Type} (e : μ → ApplyOutcome)
    (s : AppState μ) :
    (processNextMessage e s).state.book = s.book := by
  rcases processNextMessage_cases e s with h | ⟨m, rest, hb, _, hbk, _, _, _, _, hb2⟩
  · rw [h]
  · rw [hb2, hbk]

theorem processNextMessage_pubbed_mem {μ : Type} (e : μ → ApplyOutcome)
    (s : AppState μ) :
    ∀ x ∈ (processNextMessage e s).pubbed, x ∈ s.queue := by
  rcases processNextMessage_cases e s with h | ⟨m, rest, hb, hq, _, _, _, _, hp, _⟩
  · rw [h]; intro x hx; simp at hx
  · rcases hp with hp | hp <;> rw [hp] <;> intro x hx
    · simp at hx
    · simp at hx
      rw [hx, hq]
      exact List.mem_cons_self m rest

theorem processNextMessage_queue_mem {μ : Type} (e : μ → ApplyOutcome)
    (s : AppState μ) :
    ∀ x ∈ (processNextMessage e s).state.queue, x ∈ s.queue := by
  rcases processNextMessage_cases e s with h | ⟨m, rest, hb, hq, _, _, hq2, _, _, _⟩
  · rw [h]; intro x hx; exact hx
  · rw [hq2, hq]; intro x hx; exact List.mem_cons_of_mem m hx

theorem processNextMessage_applied_book {μ : Type} (e : μ → ApplyOutcome)
    (s : AppState μ) (h : (processNextMessage e s).applied ≠ []) :
    ∃ hb, s.book = some hb := by
  rcases processNextMessage_cases e s with hc | ⟨m, rest, hb, _, hbk, _, _, _, _, _⟩
  · exact absurd (by rw [hc]) h
  · exact ⟨hb, hbk⟩

theorem queueMessage_book {μ : Type} (e : μ → ApplyOutcome)
    (s : AppState μ) (m : μ) :
    (queueMessage e s m).state.book = s.book := by
  have h := processNextMessage_book e { s with queue := queuePush s.queue m }
  simpa [queueMessage] using h

theorem queueMessage_pubbed_mem {μ : Type} (e : μ → ApplyOutcome)
    (s : AppState μ) (m : μ) :
    ∀ x ∈ (queueMessage e s m).pubbed, x ∈ s.queue ++ [m] := by
  intro x hx
  have hx2 : x ∈ queuePush s.queue m := by
    have h := processNextMessage_pubbed_mem e { s with queue := queuePush s.queue m }
    have hx3 : x ∈ (processNextMessage e { s with queue := queuePush s.queue m }).pubbed := by
      simpa [queueMessage] using hx
    simpa using h x hx3
  exact (queuePush_sublist s.queue m).subset hx2

theorem queueMessage_queue_mem {μ : Type} (e : μ → ApplyOutcome)
    (s : AppState μ) (m : μ) :
    ∀ x ∈ (queueMessage e s m).state.queue, x ∈ s.queue ++ [m] := by
  intro x hx
  have hx2 : x ∈ queuePush s.queue m := by
    have h := processNextMessage_queue_mem e { s with queue := queuePush s.queue m }
    have hx3 : x ∈ (processNextMessage e { s with queue := queuePush s.queue m }).state.queue := by
      simpa [queueMessage] using hx
    simpa using h x hx3
  exact (queuePush_sublist s.queue m).subset hx2

theorem queueMessage_applied_book {μ : Type} (e : μ → ApplyOutcome)
    (s : AppState μ) (m : μ) (h : (queueMessage e s m).applied ≠ []) :
    ∃ hb, s.book = some hb := by
  have h2 : (processNextMessage e { s with queue := queuePush s.queue m }).applied ≠ [] := by
    simpa [queueMessage] using h
  simpa using processNextMessage_applied_book e _ h2

/-- Splitting an appended log at a distinguished element: the element sits
either in the old log or in the newly appended actions. -/
theorem append_split_at {α : Type} {l acts l₁ l₂ : List α} {a : α}
    (h : l ++ acts = l₁ ++ a :: l₂) :
    (∃ l₂', l = l₁ ++ a :: l₂') ∨
    (∃ l₁', l₁ = l ++ l₁' ∧ acts = l₁' ++ a :: l₂) := by
  rcases List.append_eq_append_iff.mp h with ⟨w, hw1, hw2⟩ | ⟨w, hw1, hw2⟩
  · exact Or.inr ⟨w, hw1, hw2⟩
  · cases w with
    | nil =>
      refine Or.inr ⟨[], by simpa using hw1.symm, ?_⟩
      simpa using hw2.symm
    | cons x w' =>
      obtain ⟨hx, hl⟩ := List.cons.injEq x (w' ++ acts) a l₂ ▸ hw2.symm
      exact Or.inl ⟨w', by rw [hw1, hx]⟩

/-- The session-level invariant, relative to the action log so far:
(1) exactly one engine handle is active — every handle created before it
has been freed and the handle counter sits one above it; (2) every ghost
publication happened while its message's session was the live one;
(3) every queued message belongs to the live session; (4) every recorded
freed handle has its `free` action in the log; (5) in the log, every
`apply` on a handle is preceded by the `free` of every older handle. -/
def SysInv (s : Sys) (log : List Act) : Prop :=
  (∃ h, s.st.book = some h ∧ s.freedHandles = List.range h ∧
    s.nextHandle = h + 1) ∧
  (∀ p ∈ s.published, p.1 = p.2) ∧
  (∀ p ∈ s.st.queue, p.1 = s.liveSid) ∧
  (∀ h, h ∈ s.freedHandles → Act.free h ∈ log) ∧
  (∀ l₁ h tag raw l₂, log = l₁ ++ Act.apply h tag raw :: l₂ →
    ∀ h', h' < h → Act.free h' ∈ l₁)

theorem stepSys_wsMsg_live (engine : String → ApplyOutcome) (s : Sys)
    (sid : ℕ) (raw : String) (hsid : sid = s.liveSid) :
    stepSys engine s (SysEv.wsMsg sid raw)
      = ({ s with
            st := (queueMessage (liftEngine engine) s.st (sid, raw)).state,
            published := s.published
              ++ (queueMessage (liftEngine engine) s.st (sid, raw)).pubbed.map
                  (fun p => (p.1, s.liveSid)) },
         (queueMessage (liftEngine engine) s.st (sid, raw)).applied.map
            (fun p => Act.apply (s.st.book.getD 0) p.1 p.2)
          ++ (queueMessage (liftEngine engine) s.st (sid, raw)).pubbed.map
              (fun p => Act.publish p.1 s.liveSid)) := by
  simp [stepSys, hsid]

theorem stepSys_timer_eq (engine : String → ApplyOutcome) (s : Sys) :
    stepSys engine s SysEv.timer
      = ({ s with
            st := (processNextMessage (liftEngine engine) s.st).state,
            published := s.published
              ++ (processNextMessage (liftEngine engine) s.st).pubbed.map
                  (fun p => (p.1, s.liveSid)) },
         (processNextMessage (liftEngine engine) s.st).applied.map
            (fun p => Act.apply (s.st.book.getD 0) p.1 p.2)
          ++ (processNextMessage (liftEngine engine) s.st).pubbed.map
              (fun p => Act.publish p.1 s.liveSid)) := by
  simp [stepSys]

theorem stepSys_switch_ne (engine : String → ApplyOutcome) (s : Sys)
    (sym : String) (hsym : ¬ sym = s.symbol) :
    stepSys engine s (SysEv.switch sym)
      = (switchInstrument s sym,
         s.st.book.toList.map Act.free ++ [Act.create s.nextHandle]) := by
  simp [stepSys, hsym]

/-- One session-level event preserves the invariant, extending the log by
the event's actions. -/
theorem stepSys_preserves (engine : String → ApplyOutcome) (s : Sys)
    (log : List Act) (ev : SysEv) (hinv : SysInv s log) :
    SysInv (stepSys engine s ev).1 (log ++ (stepSys engine s ev).2) := by
  obtain ⟨⟨hb, hbk, hfr, hnx⟩, hpub, hqt, hflog, happ⟩ := hinv
  cases ev with
  | wsMsg sid raw =>
    by_cases hsid : sid = s.liveSid
    · rw [stepSys_wsMsg_live engine s sid raw hsid]
      refine ⟨⟨hb, ?_, hfr, hnx⟩, ?_, ?_, ?_, ?_⟩
      · rw [queueMessage_book]
        exact hbk
      · intro p hp
        rcases List.mem_append.mp hp with hp | hp
        · exact hpub p hp
        · obtain ⟨q, hq, hqe⟩ := List.mem_map.mp hp
          have hq2 := queueMessage_pubbed_mem (liftEngine engine) s.st (sid, raw) q hq
          rcases List.mem_append.mp hq2 with hq2 | hq2
          · rw [← hqe]
            exact hqt q hq2
          · rw [← hqe]
            simp only [List.mem_singleton] at hq2
            rw [hq2]
            exact hsid
      · intro p hp
        have hp2 := queueMessage_queue_mem (liftEngine engine) s.st (sid, raw) p hp
        rcases List.mem_append.mp hp2 with hp2 | hp2
        · exact hqt p hp2
        · simp only [List.mem_singleton] at hp2
          rw [hp2]
          exact hsid
      · intro h hh
        exact List.mem_append_left _ (hflog h hh)
      · intro l₁ h tag raw' l₂ hsplit h' hlt
        dsimp only at hsplit
        rcases append_split_at hsplit with ⟨l₂', hlog⟩ | ⟨l₁', hl₁, hacts⟩
        · exact happ l₁ h tag raw' l₂' hlog h' hlt
        · have hmem : Act.apply h tag raw' ∈
              (queueMessage (liftEngine engine) s.st (sid, raw)).applied.map
                (fun p => Act.apply (s.st.book.getD 0) p.1 p.2)
              ++ (queueMessage (liftEngine engine) s.st (sid, raw)).pubbed.map
                  (fun p => Act.publish p.1 s.liveSid) := by
            rw [hacts]
            exact List.mem_append_right _ (List.mem_cons_self _ _)
          rcases List.mem_append.mp hmem with hmem | hmem
          · obtain ⟨q, hq, hqe⟩ := List.mem_map.mp hmem
            have hne : (queueMessage (liftEngine engine) s.st (sid, raw)).applied ≠ [] := by
              intro hnil
              rw [hnil] at hq
              simp at hq
            obtain ⟨hb2, hb2e⟩ :=
              queueMessage_applied_book (liftEngine engine) s.st (sid, raw) hne
            have hheq : h = hb := by
              have : s.st.book.getD 0 = hb := by rw [hbk]; rfl
              rw [← this]
              exact (Act.apply.injEq _ _ _ _ _ _ ▸ hqe).1.symm
            rw [hl₁]
            refine List.mem_append_left _ (hflog h' ?_)
            rw [hfr, List.mem_range]
            rw [hheq] at hlt
            exact hlt
          · obtain ⟨q, hq, hqe⟩ := List.mem_map.mp hmem
            exact absurd hqe (by simp)
    · have he : stepSys engine s (SysEv.wsMsg sid raw) = (s, []) := by
        simp [stepSys, hsid]
      rw [he]
      exact ⟨⟨hb, hbk, hfr, hnx⟩, hpub, hqt,
        fun h hh => List.mem_append_left _ (hflog h hh),
        fun l₁ h tag raw' l₂ hsplit => happ l₁ h tag raw' l₂ (by simpa using hsplit)⟩
  | timer =>
    rw [stepSys_timer_eq engine s]
    refine ⟨⟨hb, ?_, hfr, hnx⟩, ?_, ?_, ?_, ?_⟩
    · rw [processNextMessage_book]
      exact hbk
    · intro p hp
      rcases List.mem_append.mp hp with hp | hp
      · exact hpub p hp
      · obtain ⟨q, hq, hqe⟩ := List.mem_map.mp hp
        have hq2 := processNextMessage_pubbed_mem (liftEngine engine) s.st q hq
        rw [← hqe]
        exact hqt q hq2
    · intro p hp
      exact hqt p (processNextMessage_queue_mem (liftEngine engine) s.st p hp)
    · intro h hh
      exact List.mem_append_left _ (hflog h hh)
    · intro l₁ h tag raw' l₂ hsplit h' hlt
      dsimp only at hsplit
      rcases append_split_at hsplit with ⟨l₂', hlog⟩ | ⟨l₁', hl₁, hacts⟩
      · exact happ l₁ h tag raw' l₂' hlog h' hlt
      · have hmem : Act.apply h tag raw' ∈
            (processNextMessage (liftEngine engine) s.st).applied.map
              (fun p => Act.apply (s.st.book.getD 0) p.1 p.2)
            ++ (processNextMessage (liftEngine engine) s.st).pubbed.map
                (fun p => Act.publish p.1 s.liveSid) := by
          rw [hacts]
          exact List.mem_append_right _ (List.mem_cons_self _ _)
        rcases List.mem_append.mp hmem with hmem | hmem
        · obtain ⟨q, hq, hqe⟩ := List.mem_map.mp hmem
          have hheq : h = hb := by
            have : s.st.book.getD 0 = hb := by rw [hbk]; rfl
            rw [← this]
            exact (Act.apply.injEq _ _ _ _ _ _ ▸ hqe).1.symm
          rw [hl₁]
          refine List.mem_append_left _ (hflog h' ?_)
          rw [hfr, List.mem_range]
          rw [hheq] at hlt
          exact hlt
        · obtain ⟨q, hq, hqe⟩ := List.mem_map.mp hmem
          exact absurd hqe (by simp)
  | wsOpen sid =>
    by_cases hsid : sid = s.liveSid
    · have he : stepSys engine s (SysEv.wsOpen sid)
          = ({ s with
                st := { s.st with connected := true },
                sent := s.sent ++ [mkSubscribeReq s.symbol] }, []) := by
        simp [stepSys, hsid]
      rw [he]
      exact ⟨⟨hb, hbk, hfr, hnx⟩, hpub, hqt,
        fun h hh => List.mem_append_left _ (hflog h hh),
        fun l₁ h tag raw' l₂ hsplit => happ l₁ h tag raw' l₂ (by simpa using hsplit)⟩
    · have he : stepSys engine s (SysEv.wsOpen sid) = (s, []) := by
        simp [stepSys, hsid]
      rw [he]
      exact ⟨⟨hb, hbk, hfr, hnx⟩, hpub, hqt,
        fun h hh => List.mem_append_left _ (hflog h hh),
        fun l₁ h tag raw' l₂ hsplit => happ l₁ h tag raw' l₂ (by simpa using hsplit)⟩
  | wsClose sid =>
    by_cases hsid : sid = s.liveSid
    · have he : stepSys engine s (SysEv.wsClose sid)
          = ({ s with st := { s.st with connected := false } }, []) := by
        simp [stepSys, hsid]
      rw [he]
      exact ⟨⟨hb, hbk, hfr, hnx⟩, hpub, hqt,
        fun h hh => List.mem_append_left _ (hflog h hh),
        fun l₁ h tag raw' l₂ hsplit => happ l₁ h tag raw' l₂ (by simpa using hsplit)⟩
    · have he : stepSys engine s (SysEv.wsClose sid) = (s, []) := by
        simp [stepSys, hsid]
      rw [he]
      exact ⟨⟨hb, hbk, hfr, hnx⟩, hpub, hqt,
        fun h hh => List.mem_append_left _ (hflog h hh),
        fun l₁ h tag raw' l₂ hsplit => happ l₁ h tag raw' l₂ (by simpa using hsplit)⟩
  | switch sym =>
    by_cases hsym : sym = s.symbol
    · have he : stepSys engine s (SysEv.switch sym) = (s, []) := by
        simp [stepSys, switchInstrument, hsym]
      rw [he]
      exact ⟨⟨hb, hbk, hfr, hnx⟩, hpub, hqt,
        fun h hh => List.mem_append_left _ (hflog h hh),
        fun l₁ h tag raw' l₂ hsplit => happ l₁ h tag raw' l₂ (by simpa using hsplit)⟩
    · rw [stepSys_switch_ne engine s sym hsym]
      have hsw : switchInstrument s sym
          = { st := { bids := [], asks := [], spread := none, midPrice := none,
                      updateCount := 0, checksumValid := true,
                      connected := s.st.connected,
                      queue := [], processing := false,
                      book := some s.nextHandle },
              symbol := sym,
              liveSid := s.liveSid + 1,
              nextHandle := s.nextHandle + 1,
              freedHandles := s.freedHandles ++ s.st.book.toList,
              precisions := s.precisions ++ [(s.nextHandle, precisionFor sym)],
              sent := s.sent,
              published := s.published } := by
        unfold switchInstrument
        rw [if_neg hsym]
      rw [hsw]
      refine ⟨⟨s.nextHandle, rfl, ?_, rfl⟩, hpub, by simp, ?_, ?_⟩
      · rw [hbk, hnx, hfr]
        simp [List.range_succ]
      · intro h hh
        simp only [List.mem_append] at hh
        rcases hh with hh | hh
        · exact List.mem_append_left _ (hflog h hh)
        · rw [hbk] at hh
          simp only [Option.toList_some, List.mem_singleton] at hh
          refine List.mem_append_right _ ?_
          rw [hbk, hh]
          simp
      · intro l₁ h tag raw' l₂ hsplit h' hlt
        dsimp only at hsplit
        rcases append_split_at hsplit with ⟨l₂', hlog⟩ | ⟨l₁', hl₁, hacts⟩
        · exact happ l₁ h tag raw' l₂' hlog h' hlt
        · exfalso
          have hmem : Act.apply h tag raw' ∈
              s.st.book.toList.map Act.free ++ [Act.create s.nextHandle] := by
            rw [hacts]
            exact List.mem_append_right _ (List.mem_cons_self _ _)
          rw [hbk] at hmem
          simp at hmem

/-- The invariant propagates along any run. -/
theorem runSys_preserves (engine : String → ApplyOutcome) :
    ∀ (evs : List SysEv) (s : Sys) (log : List Act), SysInv s log →
      SysInv (runSys engine s evs).1 (log ++ (runSys engine s evs).2) := by
  intro evs
  induction evs with
  | nil =>
    intro s log h
    simpa [runSys] using h
  | cons ev evs ih =>
    intro s log h
    have h1 := stepSys_preserves engine s log ev h
    have h2 := ih (stepSys engine s ev).1 (log ++ (stepSys engine s ev).2) h1
    have he : runSys engine s (ev :: evs)
        = ((runSys engine (stepSys engine s ev).1 evs).1,
           (stepSys engine s ev).2 ++ (runSys engine (stepSys engine s ev).1 evs).2) := by
      simp [runSys]
    rw [he]
    simpa [List.append_assoc] using h2

/-- The invariant holds at mount. -/
theorem initSysInv : SysInv initSys [] := by
  refine ⟨⟨0, rfl, rfl, rfl⟩, by simp [initSys], by simp [initSys, initApp],
    by simp [initSys], ?_⟩
  intro l₁ h tag raw l₂ hc
  exact absurd hc (by cases l₁ <;> simp)

/-! ## Claim theorems: session lifecycle -/

/-- A connected session, used by the C3 counterexample and witness. -/
def sC3 : Sys :=
  { initSys with st := { initApp (ℕ × String) with connected := true } }

/-- C3 counterexample: switching a connected session to a different
instrument does not reset the connection state — the `connected` flag is
still true right after the switch, before the new session handles any
message, contradicting the claim that connection state is reset to
disconnected.  (The connect effect never writes `setConnected(false)`,
and the retired socket's `onclose` returns early on its dead `mounted`
flag.) -/
theorem switch_keeps_connected_counterexample :
    (switchInstrument sC3 "ETH/USD").symbol = "ETH/USD" ∧
    (switchInstrument sC3 "ETH/USD").st.connected = true := by
  constructor
  · decide
  · decide

/-- C3 amended: after switching to a different instrument, every derived
field is reset before the new session handles messages — bids and asks
empty, spread and mid price undefined, validity true, update counter 0,
queue empty, no message in flight, the old handle freed and a fresh
handle installed — but the connection flag is NOT reset: it keeps its
previous value until a transport open/close event of the new session. -/
theorem switch_resets_state_except_connected (s : Sys) (sym : String)
    (h : ¬ sym = s.symbol) :
    (switchInstrument s sym).st.bids = [] ∧
    (switchInstrument s sym).st.asks = [] ∧
    (switchInstrument s sym).st.spread = none ∧
    (switchInstrument s sym).st.midPrice = none ∧
    (switchInstrument s sym).st.checksumValid = true ∧
    (switchInstrument s sym).st.updateCount = 0 ∧
    (switchInstrument s sym).st.queue = [] ∧
    (switchInstrument s sym).st.processing = false ∧
    (switchInstrument s sym).freedHandles = s.freedHandles ++ s.st.book.toList ∧
    (switchInstrument s sym).st.book = some s.nextHandle ∧
    (switchInstrument s sym).st.connected = s.st.connected := by
  unfold switchInstrument
  rw [if_neg h]
  exact ⟨rfl, rfl, rfl, rfl, rfl, rfl, rfl, rfl, rfl, rfl, rfl⟩

/-- Witness for the amended C3 at a concrete connected session. -/
theorem switch_resets_state_except_connected_witness :
    (switchInstrument sC3 "ETH/USD").st.bids = [] ∧
    (switchInstrument sC3 "ETH/USD").st.asks = [] ∧
    (switchInstrument sC3 "ETH/USD").st.spread = none ∧
    (switchInstrument sC3 "ETH/USD").st.midPrice = none ∧
    (switchInstrument sC3 "ETH/USD").st.checksumValid = true ∧
    (switchInstrument sC3 "ETH/USD").st.updateCount = 0 ∧
    (switchInstrument sC3 "ETH/USD").st.queue = [] ∧
    (switchInstrument sC3 "ETH/USD").st.processing = false ∧
    (switchInstrument sC3 "ETH/USD").freedHandles
      = sC3.freedHandles ++ sC3.st.book.toList ∧
    (switchInstrument sC3 "ETH/USD").st.book = some sC3.nextHandle ∧
    (switchInstrument sC3 "ETH/USD").st.connected = sC3.st.connected :=
  switch_resets_state_except_connected sC3 "ETH/USD" (by decide)

/-- C5: over every sequence of session-level events from mount, (1) there
is exactly one active engine handle, every older handle already freed and
the handle counter one above it — in particular the previous handle's
`free` was invoked during the switch that superseded it; (2) every
publication carries the session id that was live when it was published —
no message of a superseded session is ever published; (3) the queue only
holds messages of the live session — the previous queue was discarded;
(4) in the action log, every `apply_and_get` on a handle is preceded by
the `free` of every older handle, so a superseded handle is released
before the new handle receives any message. -/
theorem one_active_session_no_stale_publish (engine : String → ApplyOutcome)
    (evs : List SysEv) :
    (∃ h, (runSys engine initSys evs).1.st.book = some h ∧
      (runSys engine initSys evs).1.freedHandles = List.range h ∧
      (runSys engine initSys evs).1.nextHandle = h + 1) ∧
    (∀ p ∈ (runSys engine initSys evs).1.published, p.1 = p.2) ∧
    (∀ p ∈ (runSys engine initSys evs).1.st.queue,
      p.1 = (runSys engine initSys evs).1.liveSid) ∧
    (∀ l₁ h tag raw l₂,
      (runSys engine initSys evs).2 = l₁ ++ Act.apply h tag raw :: l₂ →
      ∀ h', h' < h → Act.free h' ∈ l₁) := by
  obtain ⟨h1, h2, h3, h4, h5⟩ := runSys_preserves engine evs initSys [] initSysInv
  exact ⟨h1, h2, h3,
    fun l₁ h tag raw l₂ hs => h5 l₁ h tag raw l₂ (by simpa using hs)⟩

/-- Engine oracle used by session-level witnesses. -/
def engS : String → ApplyOutcome := fun _ => ApplyOutcome.ret none

/-- The event sequence of the C5 witness: connect, a message, two rapid
instrument switches, then a message and a timer for the final session. -/
def evsC5 : List SysEv :=
  [SysEv.wsOpen 0, SysEv.wsMsg 0 "a", SysEv.switch "ETH/USD",
   SysEv.switch "SOL/USD", SysEv.wsMsg 2 "b", SysEv.timer]

/-- Witness for C5 on a run with two switches in rapid succession. -/
theorem one_active_session_no_stale_publish_witness :
    (∃ h, (runSys engS initSys evsC5).1.st.book = some h ∧
      (runSys engS initSys evsC5).1.freedHandles = List.range h ∧
      (runSys engS initSys evsC5).1.nextHandle = h + 1) ∧
    (∀ p ∈ (runSys engS initSys evsC5).1.published, p.1 = p.2) ∧
    (∀ p ∈ (runSys engS initSys evsC5).1.st.queue,
      p.1 = (runSys engS initSys evsC5).1.liveSid) ∧
    (∀ l₁ h tag raw l₂,
      (runSys engS initSys evsC5).2 = l₁ ++ Act.apply h tag raw :: l₂ →
      ∀ h', h' < h → Act.free h' ∈ l₁) :=
  one_active_session_no_stale_publish engS evsC5

/-- C7: when the transport signals open for the live session, exactly one
subscription request is appended to the outbound log, a structured
request naming the subscribe method, the book channel, the currently
active symbol and depth 25 (and the connection flag turns true, with no
engine actions); an open signal of a retired socket changes nothing. -/
theorem subscribe_once_on_open (engine : String → ApplyOutcome) (s : Sys)
    (sid : ℕ) :
    (sid = s.liveSid →
      (stepSys engine s (SysEv.wsOpen sid)).1.sent
          = s.sent ++ [{ method := "subscribe", channel := "book",
                         symbol := [s.symbol], depth := 25 }] ∧
      (stepSys engine s (SysEv.wsOpen sid)).1.st.connected = true ∧
      (stepSys engine s (SysEv.wsOpen sid)).2 = []) ∧
    (¬ sid = s.liveSid → (stepSys engine s (SysEv.wsOpen sid)).1 = s) := by
  constructor
  · intro hsid
    refine ⟨?_, ?_, ?_⟩ <;> simp [stepSys, hsid, mkSubscribeReq]
  · intro hsid
    simp [stepSys, hsid]

/-- Witness for C7 at the freshly mounted session. -/
theorem subscribe_once_on_open_witness :
    (stepSys engS initSys (SysEv.wsOpen 0)).1.sent
        = initSys.sent ++ [{ method := "subscribe", channel := "book",
                             symbol := [initSys.symbol], depth := 25 }] ∧
    (stepSys engS initSys (SysEv.wsOpen 0)).1.st.connected = true ∧
    (stepSys engS initSys (SysEv.wsOpen 0)).2 = [] :=
  (subscribe_once_on_open engS initSys 0).1 rfl

/-- C8: the engine instance created on a switch is configured with the
symbol's entry of the static precision table; the table maps BTC/USD to
(1,8), ETH/USD and SOL/USD to (2,8), XRP/USD to (5,8), ADA/USD to (6,8);
a symbol with no entry defaults to price precision 2 and quantity
precision 8; and the handle created at mount was configured from the
table as well. -/
theorem precision_from_table (s : Sys) (sym : String) (h : ¬ sym = s.symbol) :
    (switchInstrument s sym).precisions
        = s.precisions ++ [(s.nextHandle, precisionFor sym)] ∧
    precisionFor "BTC/USD" = (1, 8) ∧
    precisionFor "ETH/USD" = (2, 8) ∧
    precisionFor "SOL/USD" = (2, 8) ∧
    precisionFor "XRP/USD" = (5, 8) ∧
    precisionFor "ADA/USD" = (6, 8) ∧
    (∀ t, SYMBOL_PRECISION t = none → precisionFor t = (2, 8)) ∧
    initSys.precisions = [(0, precisionFor "BTC/USD")] := by
  refine ⟨?_, by decide, by decide, by decide, by decide, by decide, ?_, rfl⟩
  · unfold switchInstrument
    rw [if_neg h]
  · intro t ht
    unfold precisionFor
    rw [ht]
    rfl

/-- Witness for C8 at a concrete switch to XRP/USD. -/
theorem precision_from_table_witness :
    (switchInstrument initSys "XRP/USD").precisions
        = initSys.precisions ++ [(initSys.nextHandle, precisionFor "XRP/USD")] ∧
    precisionFor "BTC/USD" = (1, 8) ∧
    precisionFor "ETH/USD" = (2, 8) ∧
    precisionFor "SOL/USD" = (2, 8) ∧
    precisionFor "XRP/USD" = (5, 8) ∧
    precisionFor "ADA/USD" = (6, 8) ∧
    (∀ t, SYMBOL_PRECISION t = none → precisionFor t = (2, 8)) ∧
    initSys.precisions = [(0, precisionFor "BTC/USD")] :=
  precision_from_table initSys "XRP/USD" (by decide)

/-! ## Teardown (part_000 lines 126–140 and 194–207) -/

/-- Behavior of a `free()` call on the engine handle: it may throw (for
example on a repeated release of the same handle). -/
inductive FreeBehavior where
  | ok
  | throws (msg : String)
  deriving Repr, DecidableEq

/-- The raw fallible `bookRef.current.free()` call. -/
def freeCall (fb : FreeBehavior) : Except String Unit :=
  match fb with
  | FreeBehavior.ok => Except.ok ()
  | FreeBehavior.throws m => Except.error m

/-- `if (bookRef.current) { try { bookRef.current.free() } catch (e)
{ /* Ignore */ } }`: the exception is swallowed. -/
def freeBookSwallow (fb : FreeBehavior) (book : Option ℕ) : Except String Unit :=
  match book with
  | none => Except.ok ()
  | some _ =>
    match freeCall fb with
    | Except.ok _ => Except.ok ()
    | Except.error _ => Except.ok ()

/-- The session resources a teardown touches: the engine-handle ref and
whether the transport socket is still open. -/
structure TeardownState where
  book : Option ℕ
  socketLive : Bool
  deriving Repr, DecidableEq

/-- Teardown at the start of the connect effect (lines 126–140): free the
old handle with the exception swallowed, null the ref, close and null the
old socket. -/
def teardownOnSwitch (fb : FreeBehavior) (s : TeardownState) :
    Except String TeardownState :=
  match freeBookSwallow fb s.book with
  | Except.ok _ => Except.ok { book := none, socketLive := false }
  | Except.error e => Except.error e

/-- The unmount cleanup effect (lines 194–207): free the handle with the
exception swallowed, then close the socket. -/
def teardownOnUnmount (fb : FreeBehavior) (s : TeardownState) :
    Except String TeardownState :=
  match freeBookSwallow fb s.book with
  | Except.ok _ => Except.ok { s with socketLive := false }
  | Except.error e => Except.error e

/-- C10: session teardown never propagates an exception — for every
engine-handle `free()` behavior, including a throwing or repeated
release, both the instrument-switch teardown and the unmount cleanup
return normally, the transport is closed, and the switch path also
clears the engine-handle ref. -/
theorem teardown_never_throws (fb : FreeBehavior) (s : TeardownState) :
    teardownOnSwitch fb s = Except.ok { book := none, socketLive := false } ∧
    teardownOnUnmount fb s = Except.ok { s with socketLive := false } := by
  obtain ⟨bk, sl⟩ := s
  cases bk <;> cases fb <;>
    simp [teardownOnSwitch, teardownOnUnmount, freeBookSwallow, freeCall]

end Havsyn
